import Mathlib

/-!
Verification of the HTTP tracker (`examples/udp/consumer.js` of
strongloop/sc-discovery, second part of the file): a shallow embedding of
its registry store, expiry-timer bookkeeping and request handler, and
proofs of the specified properties.

JavaScript values flowing through the tracker are JSON values (the body is
produced by `JSON.parse`); `undefined` is modelled as `Option.none` at the
points where it can occur (absent properties, the error-callback data).
-/

set_option maxHeartbeats 1000000

namespace Tracker

/-- JSON values, as produced by `JSON.parse`.  Numbers are restricted to
integers (the tracker never computes with numbers, it only stores and
re-serializes them). -/
inductive Json where
  | null
  | bool (b : Bool)
  | num (n : Int)
  | str (s : String)
  | arr (elems : List Json)
  | obj (fields : List (String × Json))
deriving Repr

/-- Whether a JSON value is an object literal. -/
def Json.isObj : Json → Bool
  | .obj _ => true
  | _ => false

/-- Lookup in a JS-object association list: first binding wins. -/
def alookup {α : Type} : List (String × α) → String → Option α
  | [], _ => none
  | (k, v) :: rest, key => if k = key then some v else alookup rest key

/-- JS-object property assignment: replace the binding in place when the key
exists (insertion order is preserved), append otherwise. -/
def aset {α : Type} : List (String × α) → String → α → List (String × α)
  | [], key, v => [(key, v)]
  | (k, w) :: rest, key, v =>
      if k = key then (key, v) :: rest else (k, w) :: aset rest key v

theorem alookup_aset_self {α : Type} (l : List (String × α)) (k : String) (v : α) :
    alookup (aset l k v) k = some v := by
  induction l with
  | nil => simp [aset, alookup]
  | cons p rest ih =>
      by_cases h : p.1 = k
      · simp [aset, alookup, h]
      · simp [aset, alookup, h, ih]

theorem alookup_aset_ne {α : Type} (l : List (String × α)) (k k' : String) (v : α)
    (h : k ≠ k') : alookup (aset l k v) k' = alookup l k' := by
  induction l with
  | nil => simp [aset, alookup, h]
  | cons p rest ih =>
      by_cases hp : p.1 = k
      · simp [aset, alookup, hp, h]
      · simp [aset, alookup, hp, ih]

theorem alookup_mem {α : Type} (l : List (String × α)) (k : String) (v : α)
    (h : alookup l k = some v) : (k, v) ∈ l := by
  induction l with
  | nil => simp [alookup] at h
  | cons p rest ih =>
      obtain ⟨a, b⟩ := p
      by_cases hp : a = k
      · simp [alookup, hp] at h
        subst hp
        subst h
        exact List.mem_cons_self _ _
      · simp [alookup, hp] at h
        exact List.mem_cons_of_mem _ (ih h)

theorem mem_aset {α : Type} (l : List (String × α)) (k : String) (v : α)
    (p : String × α) (h : p ∈ aset l k v) : p = (k, v) ∨ p ∈ l := by
  induction l with
  | nil => simpa [aset] using h
  | cons q rest ih =>
      by_cases hq : q.1 = k
      · simp [aset, hq] at h
        rcases h with h | h
        · exact Or.inl h
        · exact Or.inr (List.mem_cons_of_mem _ h)
      · simp [aset, hq] at h
        rcases h with h | h
        · exact Or.inr (by simp [h])
        · rcases ih h with h | h
          · exact Or.inl h
          · exact Or.inr (List.mem_cons_of_mem _ h)

/-! ### JSON.parse and JSON.stringify

The tracker calls the runtime's `JSON.parse` / `JSON.stringify`; these are
modelled here (integers only, basic escapes), faithful on all inputs the
claims exercise.  `JSON.parse` keeps the last binding for a duplicated
object key, which `aset` reproduces. -/

/-- Opening brace character. -/
def lbrace : Char := Char.ofNat 123

/-- Closing brace character. -/
def rbrace : Char := Char.ofNat 125

/-- Skip JSON whitespace. -/
def skipWs : List Char → List Char
  | [] => []
  | c :: cs =>
      if c = ' ' ∨ c = '\t' ∨ c = '\n' ∨ c = '\r' then skipWs cs else c :: cs

/-- Parse the remainder of a JSON string literal (opening quote consumed),
accumulating characters in reverse. -/
def parseStringChars : List Char → List Char → Option (String × List Char)
  | _, [] => none
  | acc, c :: cs =>
      if c = '"' then some (String.mk acc.reverse, cs)
      else if c = '\\' then
        match cs with
        | [] => none
        | e :: cs' =>
            let d :=
              if e = 'n' then '\n'
              else if e = 't' then '\t'
              else if e = 'r' then '\r'
              else e
            parseStringChars (d :: acc) cs'
      else parseStringChars (c :: acc) cs

/-- Parse a run of decimal digits, returning the value, the number of digits
consumed and the rest. -/
def parseDigits : List Char → Nat → Nat → (Nat × Nat × List Char)
  | [], acc, n => (acc, n, [])
  | c :: cs, acc, n =>
      if c.isDigit then parseDigits cs (acc * 10 + (c.toNat - 48)) (n + 1)
      else (acc, n, c :: cs)

mutual

/-- Parse one JSON value; `fuel` bounds nesting depth. -/
def parseValue : Nat → List Char → Option (Json × List Char)
  | 0, _ => none
  | fuel + 1, cs =>
      match skipWs cs with
      | [] => none
      | c :: cs' =>
          if c = 'n' then
            match cs' with
            | 'u' :: 'l' :: 'l' :: rest => some (.null, rest)
            | _ => none
          else if c = 't' then
            match cs' with
            | 'r' :: 'u' :: 'e' :: rest => some (.bool true, rest)
            | _ => none
          else if c = 'f' then
            match cs' with
            | 'a' :: 'l' :: 's' :: 'e' :: rest => some (.bool false, rest)
            | _ => none
          else if c = '"' then
            match parseStringChars [] cs' with
            | some (s, rest) => some (.str s, rest)
            | none => none
          else if c = '[' then parseArrayRest fuel cs' []
          else if c = lbrace then parseObjRest fuel cs' []
          else if c = '-' then
            match parseDigits cs' 0 0 with
            | (v, n, rest) => if n = 0 then none else some (.num (-(v : Int)), rest)
          else if c.isDigit then
            match parseDigits (c :: cs') 0 0 with
            | (v, _, rest) => some (.num (v : Int), rest)
          else none

/-- Parse array elements after `[`; `acc` holds the elements seen so far. -/
def parseArrayRest : Nat → List Char → List Json → Option (Json × List Char)
  | 0, _, _ => none
  | fuel + 1, cs, acc =>
      match acc, skipWs cs with
      | [], ']' :: rest => some (.arr [], rest)
      | _, _ =>
          match parseValue fuel cs with
          | none => none
          | some (v, rest) =>
              match skipWs rest with
              | ',' :: rest' => parseArrayRest fuel rest' (acc ++ [v])
              | ']' :: rest' => some (.arr (acc ++ [v]), rest')
              | _ => none

/-- Parse object members after the opening brace; duplicate keys keep the
last value (via `aset`), as `JSON.parse` does. -/
def parseObjRest : Nat → List Char → List (String × Json) → Option (Json × List Char)
  | 0, _, _ => none
  | fuel + 1, cs, acc =>
      match acc, skipWs cs with
      | [], d :: rest =>
          if d = rbrace then some (.obj [], rest) else parseObjMember fuel (d :: rest) acc
      | _, cs' => parseObjMember fuel cs' acc

/-- Parse one `"key": value` member and continue. -/
def parseObjMember : Nat → List Char → List (String × Json) → Option (Json × List Char)
  | 0, _, _ => none
  | fuel + 1, cs, acc =>
      match skipWs cs with
      | '"' :: cs' =>
          match parseStringChars [] cs' with
          | none => none
          | some (key, rest) =>
              match skipWs rest with
              | ':' :: rest' =>
                  match parseValue fuel rest' with
                  | none => none
                  | some (v, rest2) =>
                      let acc' := aset acc key v
                      match skipWs rest2 with
                      | ',' :: rest3 => parseObjRest fuel rest3 acc'
                      | d :: rest3 =>
                          if d = rbrace then some (.obj acc', rest3) else none
                      | [] => none
              | _ => none
      | _ => none

end

/-- `JSON.parse`: `none` models a thrown `SyntaxError`. -/
def parseJson (s : String) : Option Json :=
  match parseValue (s.length + 1) s.data with
  | none => none
  | some (j, rest) => if skipWs rest = [] then some j else none

/-- Escape one character for a JSON string literal. -/
def escapeChar (c : Char) : List Char :=
  if c = '"' then ['\\', '"']
  else if c = '\\' then ['\\', '\\']
  else if c = '\n' then ['\\', 'n']
  else if c = '\t' then ['\\', 't']
  else if c = '\r' then ['\\', 'r']
  else [c]

/-- Escape a string for JSON output. -/
def escapeString (s : String) : String :=
  String.mk (s.data.foldr (fun c acc => escapeChar c ++ acc) [])

/-- A JSON string literal. -/
def quoteString (s : String) : String := "\"" ++ escapeString s ++ "\""

mutual

/-- `JSON.stringify` on a JSON value. -/
def stringify : Json → String
  | .null => "null"
  | .bool true => "true"
  | .bool false => "false"
  | .num n => toString n
  | .str s => quoteString s
  | .arr xs => "[" ++ stringifyElems xs ++ "]"
  | .obj fs => "\x7b" ++ stringifyFields fs ++ "\x7d"

/-- Comma-separated serialization of array elements. -/
def stringifyElems : List Json → String
  | [] => ""
  | [x] => stringify x
  | x :: y :: rest => stringify x ++ "," ++ stringifyElems (y :: rest)

/-- Comma-separated serialization of object members. -/
def stringifyFields : List (String × Json) → String
  | [] => ""
  | [(k, v)] => quoteString k ++ ":" ++ stringify v
  | (k, v) :: p :: rest =>
      quoteString k ++ ":" ++ stringify v ++ "," ++ stringifyFields (p :: rest)

end

/-! ### JavaScript property semantics

Property reads/writes as the tracker performs them.  `Except Unit` carries
an uncaught `TypeError` (which would crash the process, since the tracker
installs no handler around these callbacks). -/

/-- Property read `j.k`.  `none` is JavaScript `undefined`.  Reading from
`null` throws.  Boxed primitives and arrays have no own property named by
any key the tracker uses. -/
def getProp : Json → String → Except Unit (Option Json)
  | .null, _ => .error ()
  | .obj fs, k => .ok (alookup fs k)
  | _, _ => .ok none

/-- Property write `j.k = v` (sloppy mode, as in the source file): throws
on `null`, updates objects, and is silently ignored on other values (a
write to an array would be retained but is invisible to `JSON.stringify`
and to every read the tracker performs, so it is modelled as the
identity). -/
def setProp (j : Json) (k : String) (v : Json) : Except Unit Json :=
  match j with
  | .null => .error ()
  | .obj fs => .ok (.obj (aset fs k v))
  | other => .ok other

/-- `typeof x === 'object'` for a possibly-`undefined` JSON value: true
exactly for `null`, arrays and objects. -/
def typeofIsObject : Option Json → Bool
  | some .null => true
  | some (.arr _) => true
  | some (.obj _) => true
  | _ => false

/-- `Object.keys(x)` paired with the member reads `x[name]` the loop in
`updateServices` performs.  Throws on `null`/`undefined`; arrays enumerate
their index strings `"0"`, `"1"`, …; other primitives have no own
enumerable properties. -/
def objectKeysVals : Option Json → Except Unit (List (String × Json))
  | some (.obj fs) => .ok fs
  | some (.arr xs) => .ok (xs.enum.map (fun p => (toString p.1, p.2)))
  | some .null => .error ()
  | none => .error ()
  | some _ => .ok []

/-! ### Tracker state (`services` and `timeoutTimerIds`), `updateServices` -/

/-- One armed `setTimeout` whose callback will mark `name` unavailable at
`fireAt` (arm time + configured timeout). -/
structure PendingTimer where
  id : Nat
  name : String
  fireAt : Nat
deriving Repr

/-- The tracker's mutable state: the `services` object, the
`timeoutTimerIds` object (`none` is the `null` sentinel a fired timer
leaves behind), the set of armed timers of the event loop, and the next
fresh timer id. -/
structure Sys where
  services : List (String × Json)
  timerIds : List (String × Option Nat)
  pending : List PendingTimer
  nextId : Nat
deriving Repr

/-- `clearTimeout(id)`: the armed timer with this id (if any) will never
fire. -/
def clearTimer (id : Nat) (pending : List PendingTimer) : List PendingTimer :=
  pending.filter (fun p => p.id != id)

/-- Lines 161–169 of the source: cancel a pending timer recorded in
`timeoutTimerIds[name]` (if truthy) and arm a fresh one for
`now + timeout`, recording its id. -/
def armTimer (timeout now : Nat) (name : String) (st : Sys) : Sys :=
  let st1 : Sys :=
    match alookup st.timerIds name with
    | some (some tid) => { st with pending := clearTimer tid st.pending }
    | _ => st
  { st1 with
    timerIds := aset st1.timerIds name (some st1.nextId),
    pending := st1.pending ++ [⟨st1.nextId, name, now + timeout⟩],
    nextId := st1.nextId + 1 }

/-- The body of the `forEach` in `updateServices` for one service name:
store the descriptor, stamp `rinfo`, and (unless `timeout` is falsy)
debounce-arm the expiry timer. -/
def reportOne (timeout now : Nat) (rinfo : Json) (st : Sys) (nd : String × Json) :
    Except Unit Sys :=
  match setProp nd.2 "rinfo" rinfo with
  | .error e => .error e
  | .ok entry =>
      let st1 : Sys := { st with services := aset st.services nd.1 entry }
      if timeout = 0 then .ok st1 else .ok (armTimer timeout now nd.1 st1)

/-- The `forEach` over `Object.keys(data.services)`. -/
def updateLoop (timeout now : Nat) (rinfo : Json) :
    Sys → List (String × Json) → Except Unit Sys
  | st, [] => .ok st
  | st, nd :: rest =>
      match reportOne timeout now rinfo st nd with
      | .error e => .error e
      | .ok st' => updateLoop timeout now rinfo st' rest

/-- `updateServices(data, rinfo)` (source lines 152–171). -/
def updateServices (timeout now : Nat) (data rinfo : Json) (st : Sys) :
    Except Unit Sys :=
  match getProp data "services" with
  | .error e => .error e
  | .ok sv =>
      match objectKeysVals sv with
      | .error e => .error e
      | .ok pairs => updateLoop timeout now rinfo st pairs

/-- The timer callback (source lines 165–169): null out
`timeoutTimerIds[name]`, then set `services[name].available = false` —
which throws if the entry no longer exists. -/
def fireCallback (name : String) (st : Sys) : Except Unit Sys :=
  let st1 : Sys := { st with timerIds := aset st.timerIds name none }
  match alookup st1.services name with
  | none => .error ()
  | some entry =>
      match setProp entry "available" (Json.bool false) with
      | .error e => .error e
      | .ok entry' => .ok { st1 with services := aset st1.services name entry' }

/-- The event loop firing timer `tid` at time `t`: a cleared timer never
fires, a timer never fires before its deadline; otherwise it is removed
from the armed set and its callback runs. -/
def stepFire (t tid : Nat) (st : Sys) : Except Unit Sys :=
  match st.pending.find? (fun p => p.id == tid) with
  | none => .ok st
  | some p =>
      if p.fireAt ≤ t then
        fireCallback p.name { st with pending := clearTimer tid st.pending }
      else .ok st

/-! ### Scheduler events

The two activities that mutate the tracker state: a merge triggered by a
request (`updateServices`) and an expiry timer firing. -/

/-- A scheduled activity at wall-clock time `t` (milliseconds). -/
inductive Event where
  | report (t : Nat) (data rinfo : Json)
  | fire (t : Nat) (tid : Nat)
deriving Repr

/-- The wall-clock instant of an event. -/
def Event.time : Event → Nat
  | .report t _ _ => t
  | .fire t _ => t

/-- The service names a report's merge would write (empty when the merge
would throw before iterating). -/
def reportNames (data : Json) : List String :=
  match getProp data "services" with
  | .error _ => []
  | .ok sv =>
      match objectKeysVals sv with
      | .error _ => []
      | .ok pairs => pairs.map Prod.fst

/-- Whether an event re-reports (hence overwrites) service `name`. -/
def Event.touchesName (name : String) : Event → Bool
  | .report _ data _ => decide (name ∈ reportNames data)
  | .fire _ _ => false

/-- Run one event against the state. -/
def stepEvent (timeout : Nat) : Event → Sys → Except Unit Sys
  | .report t data rinfo, st => updateServices timeout t data rinfo st
  | .fire t tid, st => stepFire t tid st

/-- Run a sequence of events; an error is an uncaught exception that
kills the process. -/
def runEvents (timeout : Nat) : List Event → Sys → Except Unit Sys
  | [], st => .ok st
  | e :: es, st =>
      match stepEvent timeout e st with
      | .error u => .error u
      | .ok st' => runEvents timeout es st'

/-! ### The HTTP request handler -/

/-- Outcome of `bufferRequest`: either the `end` event delivered the full
buffered body, or an `error` event invoked the callback with an error and
no data (the handler's `data` parameter is then `undefined`). -/
inductive BufferResult where
  | ok (body : String)
  | err
deriving Repr

/-- `String.prototype.toUpperCase` on ASCII method names. -/
def toUpperCase (s : String) : String := String.mk (s.data.map Char.toUpper)

/-- `bufferRequest` (source lines 88–99) as observed by the handler's
callback: the buffered body on `end`, or `undefined` data on `error`
(the callback is invoked with the error as first argument, which the
handler never inspects). -/
def bufferRequest : BufferResult → Option String
  | .ok b => some b
  | .err => none

/-- The parts of an `http.IncomingMessage` the handler reads. -/
structure Req where
  url : String
  method : String
  buffered : BufferResult
deriving Repr

/-- The parts of an `http.ServerResponse` the handler writes.  The code
never calls `setHeader`, so `headers` collects exactly the headers it
explicitly sets. -/
structure Response where
  statusCode : Nat
  body : String
  headers : List (String × String)
deriving Repr

/-- `http.STATUS_CODES` for the codes the tracker uses. -/
def STATUS_CODES (code : Nat) : String :=
  if code = 404 then "Not Found"
  else if code = 400 then "Bad Request"
  else ""

/-- `sendError(code)`: respond with the standard reason phrase. -/
def sendError (code : Nat) : Response :=
  { statusCode := code, body := STATUS_CODES code, headers := [] }

/-- `handleRequest` (source lines 110–143): buffer, route, parse, maybe
merge, respond with the serialized registry.  `rinfo` is
`req.client.address()`.  A thrown `TypeError` (null body, null
`services`) escapes the callback and is an `error` result. -/
def handleRequest (timeout now : Nat) (req : Req) (rinfo : Json) (st : Sys) :
    Except Unit (Response × Sys) :=
  let data : Option String := bufferRequest req.buffered
  if req.url ≠ "/" ∨ toUpperCase req.method ≠ "POST" then .ok (sendError 404, st)
  else
    match parseJson (data.getD "undefined") with
    | none => .ok (sendError 400, st)
    | some j =>
        match getProp j "services" with
        | .error e => .error e
        | .ok sv =>
            match (if typeofIsObject sv then updateServices timeout now j rinfo st
                   else .ok st) with
            | .error e => .error e
            | .ok st' =>
                .ok ({ statusCode := 200, body := stringify (.obj st'.services),
                       headers := [] }, st')

/-! ### The bind-error handler -/

/-- What the server's `error` listener does. -/
inductive BindAction where
  | retryListen (delayMs : Nat)
  | logError
deriving Repr, DecidableEq

/-- The `on('error')` handler (source lines 66–78): schedule a re-`listen`
after `retryBind` ms when the error is `EADDRINUSE` *or* `retryBind` is
truthy, otherwise log the error.  `retryBind = 0` models a falsy option
(an absent/falsy `retryBind` also makes the `setTimeout` delay 0). -/
def onBindError (retryBind : Nat) (errCode : String) : BindAction :=
  if errCode = "EADDRINUSE" ∨ retryBind ≠ 0 then .retryListen retryBind
  else .logError

/-! ### Observations -/

/-- A field of the stored entry for `name`, `none` when the entry is
absent or is not an object. -/
def storedField (st : Sys) (name field : String) : Option Json :=
  match alookup st.services name with
  | some (.obj fs) => alookup fs field
  | _ => none

/-! ### Basic lemmas about the merge -/

theorem armTimer_services (timeout now : Nat) (name : String) (st : Sys) :
    (armTimer timeout now name st).services = st.services := by
  unfold armTimer
  cases alookup st.timerIds name with
  | none => rfl
  | some o => cases o <;> rfl

theorem reportOne_obj (timeout now : Nat) (rinfo : Json) (st : Sys) (name : String)
    (fs : List (String × Json)) :
    reportOne timeout now rinfo st (name, Json.obj fs) =
      .ok (if timeout = 0 then
            { st with services := aset st.services name (Json.obj (aset fs "rinfo" rinfo)) }
          else
            armTimer timeout now name
              { st with services := aset st.services name (Json.obj (aset fs "rinfo" rinfo)) }) := by
  by_cases h : timeout = 0 <;> simp [reportOne, setProp, h]

/-- Running the merge loop over object-valued descriptors with distinct
names succeeds; every name ends bound to its descriptor stamped with
`rinfo`, and every other name keeps its previous binding. -/
theorem updateLoop_ok_obj (timeout now : Nat) (rinfo : Json) :
    ∀ (pairs : List (String × Json)) (st : Sys),
      (∀ p ∈ pairs, p.2.isObj = true) →
      (pairs.map Prod.fst).Nodup →
      ∃ st', updateLoop timeout now rinfo st pairs = .ok st'
        ∧ (∀ name fs, (name, Json.obj fs) ∈ pairs →
             alookup st'.services name = some (Json.obj (aset fs "rinfo" rinfo)))
        ∧ (∀ n, n ∉ pairs.map Prod.fst → alookup st'.services n = alookup st.services n) := by
  intro pairs
  induction pairs with
  | nil =>
      intro st _ _
      exact ⟨st, rfl, by simp, fun n _ => rfl⟩
  | cons hd rest ih =>
      intro st hobj hnd
      obtain ⟨name, d⟩ := hd
      have hd_obj : d.isObj = true := hobj _ (List.mem_cons_self _ _)
      obtain ⟨fs, rfl⟩ : ∃ fs, d = Json.obj fs := by
        cases d <;> first
          | exact ⟨_, rfl⟩
          | simp [Json.isObj] at hd_obj
      simp only [List.map_cons, List.nodup_cons] at hnd
      obtain ⟨hname_notin, hnd_rest⟩ := hnd
      set stMid : Sys :=
        if timeout = 0 then
          { st with services := aset st.services name (Json.obj (aset fs "rinfo" rinfo)) }
        else
          armTimer timeout now name
            { st with services := aset st.services name (Json.obj (aset fs "rinfo" rinfo)) }
        with hstMid
      have hserv : stMid.services = aset st.services name (Json.obj (aset fs "rinfo" rinfo)) := by
        by_cases h0 : timeout = 0 <;> simp [hstMid, h0, armTimer_services]
      obtain ⟨st', hrun, hmem, hpre⟩ :=
        ih stMid (fun p hp => hobj p (List.mem_cons_of_mem _ hp)) hnd_rest
      refine ⟨st', ?_, ?_, ?_⟩
      · simpa [updateLoop, reportOne_obj, ← hstMid] using hrun
      · intro nm fs' hmem'
        rcases List.mem_cons.mp hmem' with heq | hmem'
        · have h1 : nm = name := congrArg Prod.fst heq
          have h2 : Json.obj fs' = Json.obj fs := congrArg Prod.snd heq
          subst h1
          obtain rfl : fs' = fs := by injection h2
          rw [hpre nm hname_notin, hserv, alookup_aset_self]
        · exact hmem nm fs' hmem'
      · intro n hn
        simp only [List.map_cons, List.mem_cons] at hn
        push_neg at hn
        rw [hpre n hn.2, hserv, alookup_aset_ne _ _ _ _ (fun h => hn.1 h.symm)]

/-- `updateServices` on a request body `{"services": {…}}` with
object-valued, distinctly-named descriptors. -/
theorem updateServices_obj (timeout now : Nat) (pairs : List (String × Json)) (rinfo : Json)
    (st : Sys)
    (hobj : ∀ p ∈ pairs, p.2.isObj = true)
    (hnd : (pairs.map Prod.fst).Nodup) :
    ∃ st', updateServices timeout now (Json.obj [("services", Json.obj pairs)]) rinfo st = .ok st'
      ∧ (∀ name fs, (name, Json.obj fs) ∈ pairs →
           alookup st'.services name = some (Json.obj (aset fs "rinfo" rinfo)))
      ∧ (∀ n, n ∉ pairs.map Prod.fst → alookup st'.services n = alookup st.services n) := by
  obtain ⟨st', hrun, hmem, hpre⟩ := updateLoop_ok_obj timeout now rinfo pairs st hobj hnd
  refine ⟨st', ?_, hmem, hpre⟩
  simpa [updateServices, getProp, alookup, objectKeysVals] using hrun

/-! ### Claim C1 -/

/-- C1, counterexample to the claim as stated: merging `{"a": {}}` from
reporter `"addr"` stores the descriptor stamped with the reporter address
(under the field `rinfo`), but its `available` field is *not* `true` — the
merge never writes `available`, so the field is absent. -/
theorem C1_counterexample :
    updateServices 10 0 (Json.obj [("services", Json.obj [("a", Json.obj [])])])
        (Json.str "addr") ⟨[], [], [], 1⟩
      = .ok ⟨[("a", Json.obj [("rinfo", Json.str "addr")])], [("a", some 1)],
             [⟨1, "a", 10⟩], 2⟩
    ∧ storedField ⟨[("a", Json.obj [("rinfo", Json.str "addr")])], [("a", some 1)],
             [⟨1, "a", 10⟩], 2⟩ "a" "available" ≠ some (Json.bool true) := by
  refine ⟨rfl, fun h => ?_⟩
  simp [storedField, alookup] at h

/-- C1 (amended): for every merge of a reports mapping (object-valued
descriptors under distinct names) with a reporter address, every reported
name's store entry is overwritten (or inserted) with the reported
descriptor stamped with the reporter address under the server-side field
`rinfo`; no `available` field is written, and entries for other names are
untouched. -/
theorem C1_merge_overwrites (timeout now : Nat) (pairs : List (String × Json)) (rinfo : Json)
    (st : Sys)
    (hobj : ∀ p ∈ pairs, p.2.isObj = true)
    (hnd : (pairs.map Prod.fst).Nodup) :
    ∃ st', updateServices timeout now (Json.obj [("services", Json.obj pairs)]) rinfo st = .ok st'
      ∧ (∀ name fs, (name, Json.obj fs) ∈ pairs →
           alookup st'.services name = some (Json.obj (aset fs "rinfo" rinfo)))
      ∧ (∀ n, n ∉ pairs.map Prod.fst → alookup st'.services n = alookup st.services n) :=
  updateServices_obj timeout now pairs rinfo st hobj hnd

/-- C1 witness: the amended theorem applied to a one-entry report. -/
theorem C1_witness :
    ((∀ p ∈ [("a", Json.obj [("p", Json.num 1)])], p.2.isObj = true)
      ∧ ([("a", Json.obj [("p", Json.num 1)])].map Prod.fst).Nodup)
    ∧ ∃ st', updateServices 10 0
          (Json.obj [("services", Json.obj [("a", Json.obj [("p", Json.num 1)])])])
          (Json.str "1.2.3.4") ⟨[], [], [], 1⟩ = .ok st'
        ∧ (∀ name fs, (name, Json.obj fs) ∈ [("a", Json.obj [("p", Json.num 1)])] →
             alookup st'.services name = some (Json.obj (aset fs "rinfo" (Json.str "1.2.3.4"))))
        ∧ (∀ n, n ∉ [("a", Json.obj [("p", Json.num 1)])].map Prod.fst →
             alookup st'.services n = alookup (⟨[], [], [], 1⟩ : Sys).services n) :=
  ⟨⟨by decide, by decide⟩,
    C1_merge_overwrites 10 0 [("a", Json.obj [("p", Json.num 1)])] (Json.str "1.2.3.4")
      ⟨[], [], [], 1⟩ (by decide) (by decide)⟩

/-! ### Claim C10 -/

/-- C10: a `services` field that is a JSON array passes the
`typeof … === 'object'` shape check, and the merge runs over the array's
indices, inserting entries keyed by the index strings `"0"`, `"1"`, …
with the array's elements as the descriptors. -/
theorem C10_array_services (timeout now : Nat) (xs : List Json) (rinfo : Json) (st : Sys)
    (hobj : ∀ x ∈ xs, x.isObj = true)
    (hnd : ((xs.enum.map (fun p => (toString p.1, p.2))).map Prod.fst).Nodup) :
    typeofIsObject (some (Json.arr xs)) = true
    ∧ ∃ st', updateServices timeout now (Json.obj [("services", Json.arr xs)]) rinfo st = .ok st'
        ∧ ∀ i x, (i, x) ∈ xs.enum → ∀ fs, x = Json.obj fs →
            alookup st'.services (toString i) = some (Json.obj (aset fs "rinfo" rinfo)) := by
  refine ⟨rfl, ?_⟩
  have hobj' : ∀ p ∈ xs.enum.map (fun p => (toString p.1, p.2)), p.2.isObj = true := by
    intro p hp
    obtain ⟨⟨i, x⟩, hmem, rfl⟩ := List.mem_map.mp hp
    have hx : x ∈ xs := by
      have := List.enum_eq_zip_range xs ▸ hmem
      exact (List.of_mem_zip this).2
    exact hobj x hx
  obtain ⟨st', hrun, hmem, _⟩ :=
    updateLoop_ok_obj timeout now rinfo (xs.enum.map (fun p => (toString p.1, p.2))) st hobj' hnd
  refine ⟨st', ?_, ?_⟩
  · simpa [updateServices, getProp, alookup, objectKeysVals] using hrun
  · intro i x hix fs hx
    subst hx
    exact hmem (toString i) fs
      (List.mem_map.mpr ⟨(i, Json.obj fs), hix, rfl⟩)

/-- C10 witness: a two-element array is merged under keys "0" and "1". -/
theorem C10_witness :
    ((∀ x ∈ [Json.obj [("p", Json.num 1)], Json.obj []], x.isObj = true)
      ∧ ((([Json.obj [("p", Json.num 1)], Json.obj []].enum.map
            (fun p => (toString p.1, p.2))).map Prod.fst).Nodup))
    ∧ (typeofIsObject (some (Json.arr [Json.obj [("p", Json.num 1)], Json.obj []])) = true
      ∧ ∃ st', updateServices 10 0
            (Json.obj [("services", Json.arr [Json.obj [("p", Json.num 1)], Json.obj []])])
            (Json.str "r") ⟨[], [], [], 1⟩ = .ok st'
          ∧ ∀ i x, (i, x) ∈ [Json.obj [("p", Json.num 1)], Json.obj []].enum →
              ∀ fs, x = Json.obj fs →
                alookup st'.services (toString i)
                  = some (Json.obj (aset fs "rinfo" (Json.str "r")))) :=
  ⟨⟨by decide, by decide⟩,
    C10_array_services 10 0 [Json.obj [("p", Json.num 1)], Json.obj []] (Json.str "r")
      ⟨[], [], [], 1⟩ (by decide) (by decide)⟩

/-! ### Claim C9 -/

/-- C9: the claim (and the source's own NOTE comment) says binding is
retried only when `retryBind` is truthy, with a falsy `retryBind` making a
bind failure fatal (logged).  The code's condition is
`err.code === 'EADDRINUSE' || rc.retryBind`, so an address-in-use error
with falsy `retryBind` still schedules a retry (after 0 ms) instead of
logging: evaluating the handler at that failing input exhibits the bug. -/
theorem C9_bind_retry_bug :
    onBindError 0 "EADDRINUSE" = BindAction.retryListen 0
    ∧ onBindError 0 "EADDRINUSE" ≠ BindAction.logError
    ∧ onBindError 0 "EACCES" = BindAction.logError
    ∧ onBindError 7 "EACCES" = BindAction.retryListen 7 := by
  refine ⟨by decide, by decide, by decide, by decide⟩

/-! ### Claim C7 -/

/-- C7, counterexample: a timer due for name `"x"` fires while the
registry has no entry `"x"`; the callback throws (`error`) instead of
no-opping. -/
theorem C7_counterexample :
    stepFire 5 1 ⟨[], [("x", some 1)], [⟨1, "x", 5⟩], 2⟩ = .error () := by rfl

/-- C7 (amended): when an expiry timer fires for a name whose entry no
longer exists in the registry, the callback does *not* no-op — the
unguarded `services[name].available = false` throws a `TypeError`. -/
theorem C7_missing_entry_throws (t tid : Nat) (st : Sys) (p : PendingTimer)
    (hfind : st.pending.find? (fun q => q.id == tid) = some p)
    (hdue : p.fireAt ≤ t)
    (hmissing : alookup st.services p.name = none) :
    stepFire t tid st = .error () := by
  simp [stepFire, hfind, hdue, fireCallback, hmissing]

/-- C7 witness: the amended theorem at a concrete state. -/
theorem C7_witness :
    ((⟨[("y", Json.obj [])], [("x", some 3)], [⟨3, "x", 7⟩], 4⟩ : Sys).pending.find?
        (fun q => q.id == 3) = some ⟨3, "x", 7⟩
      ∧ (7 : Nat) ≤ 9
      ∧ alookup (⟨[("y", Json.obj [])], [("x", some 3)], [⟨3, "x", 7⟩], 4⟩ : Sys).services "x"
          = none)
    ∧ stepFire 9 3 ⟨[("y", Json.obj [])], [("x", some 3)], [⟨3, "x", 7⟩], 4⟩ = .error () :=
  ⟨⟨rfl, by decide, rfl⟩,
    C7_missing_entry_throws 9 3 ⟨[("y", Json.obj [])], [("x", some 3)], [⟨3, "x", 7⟩], 4⟩
      ⟨3, "x", 7⟩ rfl (by decide) rfl⟩

/-! ### The Respond step -/

/-- Any request that routes to `POST /` and parses successfully and gets a
response at all gets the 200 response with the serialized registry. -/
theorem handleRequest_200 (timeout now : Nat) (req : Req) (rinfo : Json) (st st' : Sys)
    (resp : Response)
    (hurl : req.url = "/") (hmeth : toUpperCase req.method = "POST")
    (j : Json) (hparse : parseJson ((bufferRequest req.buffered).getD "undefined") = some j)
    (h : handleRequest timeout now req rinfo st = .ok (resp, st')) :
    resp = { statusCode := 200, body := stringify (Json.obj st'.services), headers := [] } := by
  unfold handleRequest at h
  rw [if_neg (by simp [hurl, hmeth])] at h
  split at h
  · next heq =>
      rw [hparse] at heq
      exact Option.noConfusion heq
  · next j' heq =>
      rw [hparse] at heq
      obtain rfl : j = j' := Option.some.inj heq
      split at h
      · exact Except.noConfusion h
      · next sv heq2 =>
          split at h
          · exact Except.noConfusion h
          · next st2 heq3 =>
              simp only [Except.ok.injEq, Prod.mk.injEq] at h
              obtain ⟨hresp, hst⟩ := h
              subst hst
              exact hresp.symm

/-! ### Claim C2 -/

/-- C2, counterexample to the claim as stated: the code never calls
`setHeader`, so the 200 response carries no `Content-Type:
application/json` header. -/
theorem C2_counterexample :
    handleRequest 10 0 ⟨"/", "POST", .ok "\x7b\x7d"⟩ (Json.str "r") ⟨[], [], [], 1⟩
      = .ok ({ statusCode := 200, body := "\x7b\x7d", headers := [] }, ⟨[], [], [], 1⟩)
    ∧ alookup ({ statusCode := 200, body := "\x7b\x7d",
                 headers := [] } : Response).headers "Content-Type"
        ≠ some "application/json" := by
  exact ⟨rfl, fun h => Option.noConfusion h⟩

/-- C2 (amended): every request that reaches the Respond step is answered
with HTTP 200 and body equal to the JSON serialization of the full current
registry snapshot, regardless of whether the request carried a merge — but
the code sets no headers at all, so no `Content-Type` is set. -/
theorem C2_respond_snapshot (timeout now : Nat) (req : Req) (rinfo : Json) (st st' : Sys)
    (resp : Response)
    (hurl : req.url = "/") (hmeth : toUpperCase req.method = "POST")
    (j : Json) (hparse : parseJson ((bufferRequest req.buffered).getD "undefined") = some j)
    (h : handleRequest timeout now req rinfo st = .ok (resp, st')) :
    resp.statusCode = 200 ∧ resp.body = stringify (Json.obj st'.services)
      ∧ resp.headers = [] := by
  rw [handleRequest_200 timeout now req rinfo st st' resp hurl hmeth j hparse h]
  exact ⟨rfl, rfl, rfl⟩

/-- C2 witness: the amended theorem at a merge-carrying request. -/
theorem C2_witness :
    ((⟨"/", "POST", .ok "\x7b\"services\":\x7b\"a\":\x7b\x7d\x7d\x7d"⟩ : Req).url = "/"
      ∧ toUpperCase (⟨"/", "POST", .ok "\x7b\"services\":\x7b\"a\":\x7b\x7d\x7d\x7d"⟩ : Req).method
          = "POST"
      ∧ parseJson ((bufferRequest
            (⟨"/", "POST", .ok "\x7b\"services\":\x7b\"a\":\x7b\x7d\x7d\x7d"⟩ : Req).buffered).getD
            "undefined")
          = some (Json.obj [("services", Json.obj [("a", Json.obj [])])])
      ∧ handleRequest 10 0 ⟨"/", "POST", .ok "\x7b\"services\":\x7b\"a\":\x7b\x7d\x7d\x7d"⟩
            (Json.str "r") ⟨[], [], [], 1⟩
          = .ok ({ statusCode := 200, body := "\x7b\"a\":\x7b\"rinfo\":\"r\"\x7d\x7d",
                   headers := [] },
                 ⟨[("a", Json.obj [("rinfo", Json.str "r")])], [("a", some 1)],
                  [⟨1, "a", 10⟩], 2⟩))
    ∧ (({ statusCode := 200, body := "\x7b\"a\":\x7b\"rinfo\":\"r\"\x7d\x7d",
          headers := [] } : Response).statusCode = 200
      ∧ ({ statusCode := 200, body := "\x7b\"a\":\x7b\"rinfo\":\"r\"\x7d\x7d",
           headers := [] } : Response).body
          = stringify (Json.obj (⟨[("a", Json.obj [("rinfo", Json.str "r")])], [("a", some 1)],
              [⟨1, "a", 10⟩], 2⟩ : Sys).services)
      ∧ ({ statusCode := 200, body := "\x7b\"a\":\x7b\"rinfo\":\"r\"\x7d\x7d",
           headers := [] } : Response).headers = []) :=
  ⟨⟨rfl, rfl, rfl, rfl⟩,
    C2_respond_snapshot 10 0 ⟨"/", "POST", .ok "\x7b\"services\":\x7b\"a\":\x7b\x7d\x7d\x7d"⟩
      (Json.str "r") ⟨[], [], [], 1⟩
      ⟨[("a", Json.obj [("rinfo", Json.str "r")])], [("a", some 1)], [⟨1, "a", 10⟩], 2⟩
      { statusCode := 200, body := "\x7b\"a\":\x7b\"rinfo\":\"r\"\x7d\x7d", headers := [] }
      rfl rfl (Json.obj [("services", Json.obj [("a", Json.obj [])])]) rfl rfl⟩

/-! ### Claim C3 -/

/-- C3, counterexample to the claim as stated: a body decoding to `null`
makes `data.services` throw a `TypeError` (the callback crashes, no
response), and a body decoding to `{"services": null}` passes the
`typeof` check (`typeof null === 'object'`) and then crashes in
`Object.keys(null)` — neither is the claimed skipped-merge 200. -/
theorem C3_counterexample :
    handleRequest 10 0 ⟨"/", "POST", .ok "null"⟩ (Json.str "r") ⟨[], [], [], 1⟩ = .error ()
    ∧ handleRequest 10 0 ⟨"/", "POST", .ok "\x7b\"services\":null\x7d"⟩ (Json.str "r")
        ⟨[], [], [], 1⟩ = .error () :=
  ⟨rfl, rfl⟩

/-- C3 (amended): for a `POST /` request whose body decodes to a value on
which reading `.services` does not throw and whose `services` property is
not object-typed (absent, or a boolean/number/string — but not `null`,
which is object-typed and crashes the merge), the merge is skipped, no
error is surfaced, and the response is 200 with the registry snapshot
unchanged from its pre-request state. -/
theorem C3_query_skips_merge (timeout now : Nat) (req : Req) (rinfo : Json) (st : Sys)
    (hurl : req.url = "/") (hmeth : toUpperCase req.method = "POST")
    (j : Json) (hparse : parseJson ((bufferRequest req.buffered).getD "undefined") = some j)
    (sv : Option Json) (hsv : getProp j "services" = .ok sv)
    (hshape : typeofIsObject sv = false) :
    handleRequest timeout now req rinfo st
      = .ok ({ statusCode := 200, body := stringify (Json.obj st.services),
               headers := [] }, st) := by
  unfold handleRequest
  rw [if_neg (by simp [hurl, hmeth])]
  split
  · next heq => rw [hparse] at heq; exact Option.noConfusion heq
  · next j' heq =>
      rw [hparse] at heq
      obtain rfl : j = j' := Option.some.inj heq
      rw [hsv]
      dsimp only
      have hif : (if typeofIsObject sv then updateServices timeout now j rinfo st
                  else Except.ok st) = Except.ok st := by
        rw [if_neg (by simp [hshape])]
      rw [hif]

/-- C3 witness: `POST /` with body `{}` returns 200 and the pre-state. -/
theorem C3_witness :
    ((⟨"/", "POST", .ok "\x7b\x7d"⟩ : Req).url = "/"
      ∧ toUpperCase (⟨"/", "POST", .ok "\x7b\x7d"⟩ : Req).method = "POST"
      ∧ parseJson ((bufferRequest (⟨"/", "POST", .ok "\x7b\x7d"⟩ : Req).buffered).getD
            "undefined") = some (Json.obj [])
      ∧ getProp (Json.obj []) "services" = .ok none
      ∧ typeofIsObject none = false)
    ∧ handleRequest 10 0 ⟨"/", "POST", .ok "\x7b\x7d"⟩ (Json.str "r")
          ⟨[("b", Json.obj [])], [], [], 1⟩
        = .ok ({ statusCode := 200,
                 body := stringify (Json.obj (⟨[("b", Json.obj [])], [], [], 1⟩ : Sys).services),
                 headers := [] }, ⟨[("b", Json.obj [])], [], [], 1⟩) :=
  ⟨⟨rfl, rfl, rfl, rfl, rfl⟩,
    C3_query_skips_merge 10 0 ⟨"/", "POST", .ok "\x7b\x7d"⟩ (Json.str "r")
      ⟨[("b", Json.obj [])], [], [], 1⟩ rfl rfl (Json.obj []) rfl none rfl rfl⟩

/-! ### Claim C6 -/

/-- C6: a response is 404 exactly when the request is not `POST /`
(method compared after `toUpperCase`; Node delivers methods uppercase, the
hypothesis `hup` records that), 400 exactly when it is `POST /` and the
buffered data fails JSON decoding, and both error responses carry the
standard reason phrase and leave the registry state unchanged. -/
theorem C6_error_routing (timeout now : Nat) (req : Req) (rinfo : Json) (st : Sys)
    (hup : toUpperCase req.method = req.method)
    (resp : Response) (st' : Sys)
    (h : handleRequest timeout now req rinfo st = .ok (resp, st')) :
    (resp.statusCode = 404 ↔ ¬(req.url = "/" ∧ req.method = "POST"))
    ∧ (resp.statusCode = 400 ↔ (req.url = "/" ∧ req.method = "POST"
        ∧ parseJson ((bufferRequest req.buffered).getD "undefined") = none))
    ∧ ((resp.statusCode = 404 ∨ resp.statusCode = 400) →
        st' = st ∧ resp.body = STATUS_CODES resp.statusCode) := by
  by_cases hroute : req.url = "/" ∧ req.method = "POST"
  · obtain ⟨hurl, hmeth⟩ := hroute
    have hmeth' : toUpperCase req.method = "POST" := by rw [hup, hmeth]
    unfold handleRequest at h
    rw [if_neg (by simp [hurl, hmeth'])] at h
    split at h
    · next heq =>
        simp only [Except.ok.injEq, Prod.mk.injEq] at h
        obtain ⟨hresp, hst⟩ := h
        subst hst
        refine ⟨?_, ?_, ?_⟩
        · exact iff_of_false (by rw [← hresp]; simp [sendError, STATUS_CODES])
            (by simp [hurl, hmeth])
        · exact iff_of_true (by rw [← hresp]; rfl) ⟨hurl, hmeth, heq⟩
        · intro _
          exact ⟨rfl, by rw [← hresp]; rfl⟩
    · next j heq =>
        split at h
        · exact Except.noConfusion h
        · next sv heq2 =>
            split at h
            · exact Except.noConfusion h
            · next st2 heq3 =>
                simp only [Except.ok.injEq, Prod.mk.injEq] at h
                obtain ⟨hresp, hst⟩ := h
                subst hst
                refine ⟨?_, ?_, ?_⟩
                · exact iff_of_false (by rw [← hresp]; simp) (by simp [hurl, hmeth])
                · refine iff_of_false (by rw [← hresp]; simp) ?_
                  rintro ⟨_, _, hc⟩
                  rw [heq] at hc
                  exact Option.noConfusion hc
                · intro hor
                  rw [← hresp] at hor
                  rcases hor with h' | h' <;> simp at h'
  · have hcond : req.url ≠ "/" ∨ toUpperCase req.method ≠ "POST" := by
      by_cases hu : req.url = "/"
      · right
        rw [hup]
        intro hp
        exact hroute ⟨hu, hp⟩
      · left
        exact hu
    unfold handleRequest at h
    rw [if_pos hcond] at h
    simp only [Except.ok.injEq, Prod.mk.injEq] at h
    obtain ⟨hresp, hst⟩ := h
    subst hst
    refine ⟨?_, ?_, ?_⟩
    · exact iff_of_true (by rw [← hresp]; rfl) hroute
    · refine iff_of_false (by rw [← hresp]; simp [sendError, STATUS_CODES]) ?_
      rintro ⟨hA, hB, _⟩
      exact hroute ⟨hA, hB⟩
    · intro _
      exact ⟨rfl, by rw [← hresp]; rfl⟩

/-- C6 witness: `GET /` is answered with 404 and an unchanged state. -/
theorem C6_witness :
    (toUpperCase (⟨"/", "GET", .ok ""⟩ : Req).method = (⟨"/", "GET", .ok ""⟩ : Req).method
      ∧ handleRequest 10 0 ⟨"/", "GET", .ok ""⟩ (Json.str "r") ⟨[], [], [], 1⟩
          = .ok (sendError 404, ⟨[], [], [], 1⟩))
    ∧ (((sendError 404).statusCode = 404
          ↔ ¬((⟨"/", "GET", .ok ""⟩ : Req).url = "/" ∧ (⟨"/", "GET", .ok ""⟩ : Req).method = "POST"))
      ∧ ((sendError 404).statusCode = 400
          ↔ ((⟨"/", "GET", .ok ""⟩ : Req).url = "/" ∧ (⟨"/", "GET", .ok ""⟩ : Req).method = "POST"
              ∧ parseJson ((bufferRequest (⟨"/", "GET", .ok ""⟩ : Req).buffered).getD "undefined")
                  = none))
      ∧ (((sendError 404).statusCode = 404 ∨ (sendError 404).statusCode = 400) →
            (⟨[], [], [], 1⟩ : Sys) = ⟨[], [], [], 1⟩
              ∧ (sendError 404).body = STATUS_CODES (sendError 404).statusCode)) :=
  ⟨⟨rfl, rfl⟩,
    C6_error_routing 10 0 ⟨"/", "GET", .ok ""⟩ (Json.str "r") ⟨[], [], [], 1⟩ rfl
      (sendError 404) ⟨[], [], [], 1⟩ rfl⟩

/-! ### Claim C8 -/

/-- C8, counterexample to the claim as stated: on a transport error while
buffering a `POST /` request, processing is *not* aborted — the error
argument is ignored, the request is still routed and parsed
(`JSON.parse` of the `undefined` data throws) and a 400 response is
sent. -/
theorem C8_counterexample :
    handleRequest 10 0 ⟨"/", "POST", .err⟩ (Json.str "r") ⟨[], [], [], 1⟩
      = .ok (sendError 400, ⟨[], [], [], 1⟩) := rfl

/-- C8 (amended): a transport error during body buffering is ignored by
the handler (the callback's error argument is unused): the request is
still routed — a non-`POST /` request gets 404 and a `POST /` request
gets 400 because `JSON.parse` of the `undefined` body fails — and in
both cases the service does not crash and the store is unchanged. -/
theorem C8_transport_error_ignored (timeout now : Nat) (req : Req) (rinfo : Json) (st : Sys)
    (herr : req.buffered = .err) :
    (¬(req.url = "/" ∧ toUpperCase req.method = "POST")
        → handleRequest timeout now req rinfo st = .ok (sendError 404, st))
    ∧ ((req.url = "/" ∧ toUpperCase req.method = "POST")
        → handleRequest timeout now req rinfo st = .ok (sendError 400, st)) := by
  have hparse : parseJson ((bufferRequest req.buffered).getD "undefined") = none := by
    rw [herr]
    rfl
  constructor
  · intro hbad
    unfold handleRequest
    rw [if_pos ?_]
    rcases not_and_or.mp hbad with h' | h'
    · exact Or.inl h'
    · exact Or.inr h'
  · rintro ⟨hurl, hmeth⟩
    unfold handleRequest
    rw [if_neg (by simp [hurl, hmeth])]
    split
    · rfl
    · next j heq =>
        rw [hparse] at heq
        exact Option.noConfusion heq

/-- C8 witness: the amended theorem at a concrete transport-error
request. -/
theorem C8_witness :
    ((⟨"/", "POST", .err⟩ : Req).buffered = .err)
    ∧ ((¬((⟨"/", "POST", .err⟩ : Req).url = "/"
            ∧ toUpperCase (⟨"/", "POST", .err⟩ : Req).method = "POST")
          → handleRequest 10 0 ⟨"/", "POST", .err⟩ (Json.str "r") ⟨[], [], [], 1⟩
              = .ok (sendError 404, ⟨[], [], [], 1⟩))
      ∧ (((⟨"/", "POST", .err⟩ : Req).url = "/"
            ∧ toUpperCase (⟨"/", "POST", .err⟩ : Req).method = "POST")
          → handleRequest 10 0 ⟨"/", "POST", .err⟩ (Json.str "r") ⟨[], [], [], 1⟩
              = .ok (sendError 400, ⟨[], [], [], 1⟩))) :=
  ⟨rfl, C8_transport_error_ignored 10 0 ⟨"/", "POST", .err⟩ (Json.str "r") ⟨[], [], [], 1⟩ rfl⟩

/-! ### Timer-bookkeeping invariant

`timeoutTimerIds` is the tracker's only record of armed timers; the
invariant ties it to the event loop's armed-timer set: every armed timer
is recorded under its name, ids are bounded by the fresh-id counter, a
recorded id only designates a timer of the recording name, and armed
timer ids are distinct. -/

/-- Every armed timer for `name` expires at `fa`. -/
def NameTimersAt (name : String) (fa : Nat) (st : Sys) : Prop :=
  ∀ p ∈ st.pending, p.name = name → p.fireAt = fa

/-- A `timeoutTimerIds` entry is consistent with the armed-timer set. -/
def TrackedOK (st : Sys) (e : String × Option Nat) : Prop :=
  match e.2 with
  | none => True
  | some id => id < st.nextId ∧ ∀ p ∈ st.pending, p.id = id → p.name = e.1

/-- The tracker's timer-bookkeeping invariant. -/
def Inv (st : Sys) : Prop :=
  (∀ p ∈ st.pending, alookup st.timerIds p.name = some (some p.id))
  ∧ (∀ p ∈ st.pending, p.id < st.nextId)
  ∧ (∀ e ∈ st.timerIds, TrackedOK st e)
  ∧ st.pending.Pairwise (fun p q => p.id ≠ q.id)

theorem pairwise_id_unique (l : List PendingTimer) :
    l.Pairwise (fun p q => p.id ≠ q.id) →
    ∀ p ∈ l, ∀ q ∈ l, p.id = q.id → p = q := by
  induction l with
  | nil => intro _ p hp; simp at hp
  | cons a l ih =>
      intro h p hp q hq hid
      rw [List.pairwise_cons] at h
      rcases List.mem_cons.mp hp with rfl | hp'
      · rcases List.mem_cons.mp hq with rfl | hq'
        · rfl
        · exact absurd hid (h.1 q hq')
      · rcases List.mem_cons.mp hq with rfl | hq'
        · exact absurd hid.symm (h.1 p hp')
        · exact ih h.2 p hp' q hq' hid

/-! ### armTimer structure lemmas -/

theorem armTimer_nextId (T now : Nat) (n : String) (st : Sys) :
    (armTimer T now n st).nextId = st.nextId + 1 := by
  unfold armTimer
  cases alookup st.timerIds n with
  | none => rfl
  | some o => cases o <;> rfl

theorem armTimer_timerIds_self (T now : Nat) (n : String) (st : Sys) :
    alookup (armTimer T now n st).timerIds n = some (some st.nextId) := by
  unfold armTimer
  cases alookup st.timerIds n with
  | none => exact alookup_aset_self _ _ _
  | some o => cases o <;> exact alookup_aset_self _ _ _

theorem armTimer_timerIds_ne (T now : Nat) (n m : String) (st : Sys) (h : n ≠ m) :
    alookup (armTimer T now n st).timerIds m = alookup st.timerIds m := by
  unfold armTimer
  cases alookup st.timerIds n with
  | none => exact alookup_aset_ne _ _ _ _ h
  | some o => cases o <;> exact alookup_aset_ne _ _ _ _ h

theorem armTimer_mem_new (T now : Nat) (n : String) (st : Sys) :
    (⟨st.nextId, n, now + T⟩ : PendingTimer) ∈ (armTimer T now n st).pending := by
  unfold armTimer
  cases alookup st.timerIds n with
  | none => exact List.mem_append_right _ (List.mem_singleton.mpr rfl)
  | some o => cases o <;> exact List.mem_append_right _ (List.mem_singleton.mpr rfl)

theorem armTimer_pending_cases (T now : Nat) (n : String) (st : Sys) (q : PendingTimer)
    (hq : q ∈ (armTimer T now n st).pending) :
    q = ⟨st.nextId, n, now + T⟩ ∨ q ∈ st.pending := by
  unfold armTimer at hq
  cases hl : alookup st.timerIds n with
  | none =>
      rw [hl] at hq
      rcases List.mem_append.mp hq with h | h
      · exact Or.inr h
      · exact Or.inl (List.mem_singleton.mp h)
  | some o =>
      cases o with
      | none =>
          rw [hl] at hq
          rcases List.mem_append.mp hq with h | h
          · exact Or.inr h
          · exact Or.inl (List.mem_singleton.mp h)
      | some tid =>
          rw [hl] at hq
          rcases List.mem_append.mp hq with h | h
          · exact Or.inr (List.mem_of_mem_filter h)
          · exact Or.inl (List.mem_singleton.mp h)

/-- Survival through a re-arm for another name: a timer whose id differs
from any id recorded for `n` survives `armTimer … n`. -/
theorem armTimer_mem_keep (T now : Nat) (n : String) (st : Sys) (q : PendingTimer)
    (hq : q ∈ st.pending)
    (hid : ∀ tid, alookup st.timerIds n = some (some tid) → q.id ≠ tid) :
    q ∈ (armTimer T now n st).pending := by
  unfold armTimer
  cases hl : alookup st.timerIds n with
  | none => exact List.mem_append_left _ hq
  | some o =>
      cases o with
      | none => exact List.mem_append_left _ hq
      | some tid =>
          refine List.mem_append_left _ (List.mem_filter.mpr ⟨hq, ?_⟩)
          have := hid tid hl
          simpa [clearTimer] using this

/-- Under the tracking clause of `Inv`, the only armed timer for `n` after
`armTimer … n` is the fresh one (debounce: the old one was cancelled). -/
theorem armTimer_name_unique (T now : Nat) (n : String) (st : Sys)
    (h1 : ∀ p ∈ st.pending, alookup st.timerIds p.name = some (some p.id))
    (q : PendingTimer) (hq : q ∈ (armTimer T now n st).pending) (hname : q.name = n) :
    q = ⟨st.nextId, n, now + T⟩ := by
  unfold armTimer at hq
  cases hl : alookup st.timerIds n with
  | none =>
      rw [hl] at hq
      rcases List.mem_append.mp hq with h | h
      · have := h1 q h
        rw [hname, hl] at this
        exact Option.noConfusion this
      · exact List.mem_singleton.mp h
  | some o =>
      cases o with
      | none =>
          rw [hl] at hq
          rcases List.mem_append.mp hq with h | h
          · have := h1 q h
            rw [hname, hl] at this
            exact Option.noConfusion (Option.some.inj this)
          · exact List.mem_singleton.mp h
      | some tid =>
          rw [hl] at hq
          rcases List.mem_append.mp hq with h | h
          · obtain ⟨hmem, hfilt⟩ := List.mem_filter.mp h
            have := h1 q hmem
            rw [hname, hl] at this
            have hqid : q.id = tid := (Option.some.inj (Option.some.inj this)).symm
            simp [hqid] at hfilt
          · exact List.mem_singleton.mp h

/-! ### Invariant preservation -/

theorem Inv_services_set (st : Sys) (s : List (String × Json)) (h : Inv st) :
    Inv { st with services := s } := h

theorem Inv_arm_aux (T now : Nat) (n : String) (st : Sys) (s : List (String × Json))
    (pend1 : List PendingTimer)
    (hmem : ∀ p ∈ pend1, p ∈ st.pending)
    (hpair : pend1.Pairwise (fun p q => p.id ≠ q.id))
    (hname : ∀ p ∈ pend1, p.name ≠ n)
    (h1 : ∀ p ∈ st.pending, alookup st.timerIds p.name = some (some p.id))
    (h2 : ∀ p ∈ st.pending, p.id < st.nextId)
    (h3 : ∀ e ∈ st.timerIds, TrackedOK st e) :
    Inv { services := s, timerIds := aset st.timerIds n (some st.nextId),
          pending := pend1 ++ [⟨st.nextId, n, now + T⟩], nextId := st.nextId + 1 } := by
  refine ⟨?_, ?_, ?_, ?_⟩ <;> dsimp only
  · intro p hp
    rcases List.mem_append.mp hp with hp | hp
    · have hne : n ≠ p.name := fun he => hname p hp he.symm
      rw [alookup_aset_ne _ _ _ _ hne]
      exact h1 p (hmem p hp)
    · have hp' := List.mem_singleton.mp hp
      subst hp'
      exact alookup_aset_self _ _ _
  · intro p hp
    rcases List.mem_append.mp hp with hp | hp
    · exact Nat.lt_succ_of_lt (h2 p (hmem p hp))
    · have hp' := List.mem_singleton.mp hp
      subst hp'
      exact Nat.lt_succ_self _
  · intro e he
    rcases mem_aset _ _ _ _ he with rfl | he
    · refine ⟨Nat.lt_succ_self _, ?_⟩
      intro p hp hid
      rcases List.mem_append.mp hp with hp | hp
      · exact absurd hid (Nat.ne_of_lt (h2 p (hmem p hp)))
      · have hp' := List.mem_singleton.mp hp
        subst hp'
        rfl
    · obtain ⟨k, o⟩ := e
      cases o with
      | none => trivial
      | some id =>
          obtain ⟨hlt, hall⟩ := h3 (k, some id) he
          refine ⟨Nat.lt_succ_of_lt hlt, ?_⟩
          intro p hp hid
          rcases List.mem_append.mp hp with hp | hp
          · exact hall p (hmem p hp) hid
          · have hp' := List.mem_singleton.mp hp
            subst hp'
            exact absurd hid.symm (Nat.ne_of_lt hlt)
  · rw [List.pairwise_append]
    refine ⟨hpair, List.pairwise_singleton _ _, ?_⟩
    intro p hp q hq
    have hq' := List.mem_singleton.mp hq
    subst hq'
    exact Nat.ne_of_lt (h2 p (hmem p hp))

theorem Inv_armTimer (T now : Nat) (n : String) (st : Sys) (h : Inv st) :
    Inv (armTimer T now n st) := by
  obtain ⟨h1, h2, h3, h4⟩ := h
  unfold armTimer
  cases hl : alookup st.timerIds n with
  | none =>
      refine Inv_arm_aux T now n st _ st.pending (fun p hp => hp) h4 ?_ h1 h2 h3
      intro p hp he
      rw [← he] at hl
      rw [h1 p hp] at hl
      exact Option.noConfusion hl
  | some o =>
      cases o with
      | none =>
          refine Inv_arm_aux T now n st _ st.pending (fun p hp => hp) h4 ?_ h1 h2 h3
          intro p hp he
          rw [← he] at hl
          rw [h1 p hp] at hl
          exact Option.noConfusion (Option.some.inj hl)
      | some tid =>
          refine Inv_arm_aux T now n st _ (clearTimer tid st.pending)
            (fun p hp => List.mem_of_mem_filter hp)
            (List.Pairwise.sublist (List.filter_sublist _) h4) ?_ h1 h2 h3
          intro p hp he
          obtain ⟨hmem, hfilt⟩ := List.mem_filter.mp hp
          rw [← he] at hl
          rw [h1 p hmem] at hl
          have hpt : p.id = tid := Option.some.inj (Option.some.inj hl)
          simp [hpt] at hfilt

theorem Inv_reportOne (timeout now : Nat) (rinfo : Json) (st : Sys) (nd : String × Json)
    (st' : Sys) (hInv : Inv st) (h : reportOne timeout now rinfo st nd = .ok st') :
    Inv st' := by
  unfold reportOne at h
  split at h
  · exact Except.noConfusion h
  · split at h
    · exact (Except.ok.inj h) ▸ Inv_services_set st _ hInv
    · exact (Except.ok.inj h) ▸ Inv_armTimer _ _ _ _ (Inv_services_set st _ hInv)

theorem Inv_updateLoop (timeout now : Nat) (rinfo : Json) :
    ∀ (pairs : List (String × Json)) (st st' : Sys), Inv st →
      updateLoop timeout now rinfo st pairs = .ok st' → Inv st' := by
  intro pairs
  induction pairs with
  | nil =>
      intro st st' hInv h
      exact (Except.ok.inj h) ▸ hInv
  | cons nd rest ih =>
      intro st st' hInv h
      unfold updateLoop at h
      split at h
      · exact Except.noConfusion h
      · next st1 h1 => exact ih st1 st' (Inv_reportOne timeout now rinfo st nd st1 hInv h1) h

theorem Inv_updateServices (timeout now : Nat) (data rinfo : Json) (st st' : Sys)
    (hInv : Inv st) (h : updateServices timeout now data rinfo st = .ok st') : Inv st' := by
  unfold updateServices at h
  split at h
  · exact Except.noConfusion h
  · split at h
    · exact Except.noConfusion h
    · next pairs hpairs => exact Inv_updateLoop timeout now rinfo pairs st st' hInv h

theorem fireCallback_ok_parts (n : String) (st st' : Sys)
    (h : fireCallback n st = .ok st') :
    st'.pending = st.pending ∧ st'.timerIds = aset st.timerIds n none
    ∧ st'.nextId = st.nextId
    ∧ ∃ entry entry', alookup st.services n = some entry
        ∧ setProp entry "available" (Json.bool false) = .ok entry'
        ∧ st'.services = aset st.services n entry' := by
  unfold fireCallback at h
  dsimp only at h
  split at h
  · exact Except.noConfusion h
  · next entry hl =>
      split at h
      · exact Except.noConfusion h
      · next entry' hsp =>
          have hs := Except.ok.inj h
          subst hs
          exact ⟨rfl, rfl, rfl, entry, entry', hl, hsp, rfl⟩

theorem Inv_stepFire (t tid : Nat) (st st' : Sys) (hInv : Inv st)
    (h : stepFire t tid st = .ok st') : Inv st' := by
  unfold stepFire at h
  split at h
  · exact (Except.ok.inj h) ▸ hInv
  · next p hfind =>
      split at h
      · obtain ⟨hpend, htids, hnext, _, _, _, _, _⟩ := fireCallback_ok_parts _ _ _ h
        obtain ⟨h1, h2, h3, h4⟩ := hInv
        have hpmem : p ∈ st.pending := List.mem_of_find?_eq_some hfind
        have hfp := List.find?_some hfind
        have hpid : p.id = tid := by simpa using hfp
        have hsubpend : st'.pending = clearTimer tid st.pending := hpend
        refine ⟨?_, ?_, ?_, ?_⟩
        · intro q hq
          rw [hsubpend] at hq
          obtain ⟨hqmem, hqfilt⟩ := List.mem_filter.mp hq
          have hqne : p.name ≠ q.name := by
            intro he
            have e1 := h1 p hpmem
            have e2 := h1 q hqmem
            rw [he] at e1
            rw [e1] at e2
            have : p.id = q.id := Option.some.inj (Option.some.inj e2)
            rw [hpid] at this
            simp [← this] at hqfilt
          rw [htids, alookup_aset_ne _ _ _ _ hqne]
          exact h1 q hqmem
        · intro q hq
          rw [hsubpend] at hq
          rw [hnext]
          exact h2 q (List.mem_of_mem_filter hq)
        · intro e he
          rw [htids] at he
          rcases mem_aset _ _ _ _ he with rfl | he
          · trivial
          · obtain ⟨k, o⟩ := e
            cases o with
            | none => trivial
            | some id =>
                obtain ⟨hlt, hall⟩ := h3 (k, some id) he
                refine ⟨by rw [hnext]; exact hlt, ?_⟩
                intro q hq hqid
                rw [hsubpend] at hq
                exact hall q (List.mem_of_mem_filter hq) hqid
        · rw [hsubpend]
          exact List.Pairwise.sublist (List.filter_sublist _) h4
      · exact (Except.ok.inj h) ▸ hInv

/-! ### Events that do not involve a name leave its entry and timer alone -/

theorem Inv_at_most_one (st : Sys) (h : Inv st) :
    ∀ p ∈ st.pending, ∀ q ∈ st.pending, p.name = q.name → p = q := by
  obtain ⟨h1, _, _, h4⟩ := h
  intro p hp q hq hn
  have e1 := h1 p hp
  have e2 := h1 q hq
  rw [hn, e2] at e1
  exact pairwise_id_unique _ h4 p hp q hq (Option.some.inj (Option.some.inj e1)).symm

/-- A merge over names other than `name` leaves `name`'s binding alone and
creates armed timers only for the merged names. -/
theorem updateLoop_no_name (timeout now : Nat) (rinfo : Json) (name : String) :
    ∀ (pairs : List (String × Json)) (st st' : Sys), name ∉ pairs.map Prod.fst →
      updateLoop timeout now rinfo st pairs = .ok st' →
      alookup st'.services name = alookup st.services name
      ∧ (∀ q ∈ st'.pending, q ∈ st.pending ∨ q.name ∈ pairs.map Prod.fst) := by
  intro pairs
  induction pairs with
  | nil =>
      intro st st' _ h
      exact (Except.ok.inj h) ▸ ⟨rfl, fun q hq => Or.inl hq⟩
  | cons nd rest ih =>
      intro st st' hname h
      simp only [List.map_cons, List.mem_cons] at hname
      push_neg at hname
      obtain ⟨hne, hnotin⟩ := hname
      unfold updateLoop at h
      split at h
      · exact Except.noConfusion h
      · next st1 hrep =>
          unfold reportOne at hrep
          split at hrep
          · exact Except.noConfusion hrep
          · next entry hsp =>
              split at hrep
              · next h0 =>
                  have hst1 := Except.ok.inj hrep
                  obtain ⟨hserv, hpend⟩ := ih st1 st' hnotin h
                  subst hst1
                  refine ⟨?_, ?_⟩
                  · rw [hserv]
                    exact alookup_aset_ne _ _ _ _ (fun he => hne he.symm)
                  · intro q hq
                    rcases hpend q hq with hq' | hq'
                    · exact Or.inl hq'
                    · exact Or.inr (List.mem_cons_of_mem _ hq')
              · next h0 =>
                  have hst1 := Except.ok.inj hrep
                  obtain ⟨hserv, hpend⟩ := ih st1 st' hnotin h
                  subst hst1
                  refine ⟨?_, ?_⟩
                  · rw [hserv, armTimer_services]
                    exact alookup_aset_ne _ _ _ _ (fun he => hne he.symm)
                  · intro q hq
                    rcases hpend q hq with hq' | hq'
                    · rcases armTimer_pending_cases _ _ _ _ q hq' with rfl | hq''
                      · exact Or.inr (List.mem_cons_self _ _)
                      · exact Or.inl hq''
                    · exact Or.inr (List.mem_cons_of_mem _ hq')

/-- Under `Inv`, a merge over other names also keeps every armed timer
named `name` armed (its id can never be the one cancelled). -/
theorem updateLoop_keep_name (timeout now : Nat) (rinfo : Json) (name : String) :
    ∀ (pairs : List (String × Json)) (st st' : Sys), name ∉ pairs.map Prod.fst →
      Inv st →
      updateLoop timeout now rinfo st pairs = .ok st' →
      ∀ q ∈ st.pending, q.name = name → q ∈ st'.pending := by
  intro pairs
  induction pairs with
  | nil =>
      intro st st' _ _ h
      exact (Except.ok.inj h) ▸ fun q hq _ => hq
  | cons nd rest ih =>
      intro st st' hname hInv h
      simp only [List.map_cons, List.mem_cons] at hname
      push_neg at hname
      obtain ⟨hne, hnotin⟩ := hname
      unfold updateLoop at h
      split at h
      · exact Except.noConfusion h
      · next st1 hrep =>
          have hInv1 : Inv st1 := Inv_reportOne timeout now rinfo st nd st1 hInv hrep
          unfold reportOne at hrep
          split at hrep
          · exact Except.noConfusion hrep
          · next entry hsp =>
              split at hrep
              · next h0 =>
                  have hst1 := Except.ok.inj hrep
                  subst hst1
                  exact fun q hq hqn => ih _ st' hnotin hInv1 h q hq hqn
              · next h0 =>
                  have hst1 := Except.ok.inj hrep
                  subst hst1
                  intro q hq hqn
                  refine ih _ st' hnotin hInv1 h q ?_ hqn
                  refine armTimer_mem_keep _ _ _ _ q hq ?_
                  intro tid hl hid
                  obtain ⟨_, _, h3, _⟩ := hInv
                  obtain ⟨_, hall⟩ := h3 (nd.1, some tid) (alookup_mem _ _ _ hl)
                  have : q.name = nd.1 := hall q hq hid
                  rw [hqn] at this
                  exact hne this

/-- `reportNames` computed along the successful-merge path. -/
theorem reportNames_of_ok (data : Json) (sv : Option Json) (pairs : List (String × Json))
    (hsv : getProp data "services" = .ok sv) (hpairs : objectKeysVals sv = .ok pairs) :
    reportNames data = pairs.map Prod.fst := by
  unfold reportNames
  split
  · next e heq =>
      rw [heq] at hsv
      exact Except.noConfusion hsv
  · next sv' heq =>
      rw [heq] at hsv
      obtain rfl : sv' = sv := Except.ok.inj hsv
      split
      · next e heq2 =>
          rw [heq2] at hpairs
          exact Except.noConfusion hpairs
      · next pairs' heq2 =>
          rw [heq2] at hpairs
          exact congrArg (List.map Prod.fst) (Except.ok.inj hpairs)

/-- A merge that does not involve `name`: the binding is untouched, no
timer named `name` appears, and (under `Inv`) armed timers named `name`
stay armed. -/
theorem updateServices_untouched (timeout now : Nat) (data rinfo : Json) (name : String)
    (st st' : Sys) (hname : name ∉ reportNames data)
    (h : updateServices timeout now data rinfo st = .ok st') :
    alookup st'.services name = alookup st.services name
    ∧ (∀ q ∈ st'.pending, q ∈ st.pending ∨ q.name ≠ name)
    ∧ (Inv st → ∀ q ∈ st.pending, q.name = name → q ∈ st'.pending) := by
  unfold updateServices at h
  split at h
  · exact Except.noConfusion h
  · next sv hsv =>
      split at h
      · exact Except.noConfusion h
      · next pairs hpairs =>
          have hrn := reportNames_of_ok data sv pairs hsv hpairs
          rw [hrn] at hname
          obtain ⟨hserv, hpend⟩ := updateLoop_no_name timeout now rinfo name pairs st st' hname h
          refine ⟨hserv, ?_, ?_⟩
          · intro q hq
            rcases hpend q hq with hq' | hq'
            · exact Or.inl hq'
            · exact Or.inr (fun he => hname (he ▸ hq'))
          · intro hInv
            exact updateLoop_keep_name timeout now rinfo name pairs st st' hname hInv h

/-- A timer firing keeps every armed timer, and leaves the binding of any
name none of the armed timers carries alone. -/
theorem stepFire_names (t tid : Nat) (st st' : Sys) (h : stepFire t tid st = .ok st') :
    (∀ q ∈ st'.pending, q ∈ st.pending)
    ∧ (∀ m, (∀ p ∈ st.pending, p.name ≠ m) →
        alookup st'.services m = alookup st.services m) := by
  unfold stepFire at h
  split at h
  · exact (Except.ok.inj h) ▸ ⟨fun q hq => hq, fun m _ => rfl⟩
  · next p hfind =>
      split at h
      · obtain ⟨hpend, _, _, _, entry', _, _, hserv⟩ := fireCallback_ok_parts _ _ _ h
        have hpmem : p ∈ st.pending := List.mem_of_find?_eq_some hfind
        refine ⟨?_, ?_⟩
        · intro q hq
          rw [hpend] at hq
          exact List.mem_of_mem_filter hq
        · intro m hm
          rw [hserv]
          exact alookup_aset_ne _ _ _ _ (hm p hpmem)
      · exact (Except.ok.inj h) ▸ ⟨fun q hq => hq, fun m _ => rfl⟩

/-- Before `fa`, with every timer for `name` due at `fa`, a fire event
cannot touch `name`'s entry and keeps its armed timer. -/
theorem stepFire_untouched (t tid : Nat) (st st' : Sys) (name : String) (fa id₀ : Nat)
    (entry : Json)
    (hInv : Inv st) (ht : t < fa)
    (hmemb : (⟨id₀, name, fa⟩ : PendingTimer) ∈ st.pending)
    (hNTA : NameTimersAt name fa st)
    (hlook : alookup st.services name = some entry)
    (h : stepFire t tid st = .ok st') :
    alookup st'.services name = some entry
    ∧ (⟨id₀, name, fa⟩ : PendingTimer) ∈ st'.pending
    ∧ (∀ q ∈ st'.pending, q ∈ st.pending) := by
  unfold stepFire at h
  split at h
  · exact (Except.ok.inj h) ▸ ⟨hlook, hmemb, fun q hq => hq⟩
  · next p hfind =>
      split at h
      · next hdue =>
          obtain ⟨hpend, _, _, _, entry', _, _, hserv⟩ := fireCallback_ok_parts _ _ _ h
          have hpmem : p ∈ st.pending := List.mem_of_find?_eq_some hfind
          have hpname : p.name ≠ name := by
            intro he
            have := hNTA p hpmem he
            rw [this] at hdue
            exact absurd ht (Nat.not_lt.mpr hdue)
          have hfp := List.find?_some hfind
          have hpid : p.id = tid := by simpa using hfp
          obtain ⟨h1, _, h3, _⟩ := hInv
          have hid : id₀ ≠ tid := by
            intro he
            obtain ⟨_, hall⟩ := h3 (p.name, some p.id) (alookup_mem _ _ _ (h1 p hpmem))
            have := hall ⟨id₀, name, fa⟩ hmemb (by simp [he, hpid])
            exact hpname this.symm
          refine ⟨?_, ?_, ?_⟩
          · rw [hserv]
            rw [alookup_aset_ne _ _ _ _ hpname]
            exact hlook
          · rw [hpend]
            refine List.mem_filter.mpr ⟨hmemb, ?_⟩
            simpa [clearTimer] using hid
          · intro q hq
            rw [hpend] at hq
            exact List.mem_of_mem_filter hq
      · exact (Except.ok.inj h) ▸ ⟨hlook, hmemb, fun q hq => hq⟩

/-! ### Run-level preservation -/

/-- Through any events strictly before `fa` that do not re-report `name`:
the invariant, `name`'s binding, its armed timer due at `fa`, and the
all-timers-at-`fa` property are preserved. -/
theorem runEvents_preserve (timeout : Nat) (name : String) (fa id₀ : Nat) (entry : Json) :
    ∀ (es : List Event) (st st' : Sys),
      (∀ e ∈ es, Event.time e < fa) →
      (∀ e ∈ es, Event.touchesName name e = false) →
      Inv st → alookup st.services name = some entry →
      (⟨id₀, name, fa⟩ : PendingTimer) ∈ st.pending →
      NameTimersAt name fa st →
      runEvents timeout es st = .ok st' →
      Inv st' ∧ alookup st'.services name = some entry
        ∧ (⟨id₀, name, fa⟩ : PendingTimer) ∈ st'.pending
        ∧ NameTimersAt name fa st' := by
  intro es
  induction es with
  | nil =>
      intro st st' _ _ hInv hlook hmemb hNTA h
      exact (Except.ok.inj h) ▸ ⟨hInv, hlook, hmemb, hNTA⟩
  | cons e es ih =>
      intro st st' htime htouch hInv hlook hmemb hNTA h
      unfold runEvents at h
      split at h
      · exact Except.noConfusion h
      · next st1 hstep =>
          have htime1 := htime e (List.mem_cons_self _ _)
          have htouch1 := htouch e (List.mem_cons_self _ _)
          have htimes := fun e' he' => htime e' (List.mem_cons_of_mem _ he')
          have htouches := fun e' he' => htouch e' (List.mem_cons_of_mem _ he')
          cases e with
          | report tr data rinfo =>
              have hname : name ∉ reportNames data := by
                have := htouch1
                simp only [Event.touchesName] at this
                exact of_decide_eq_false this
              have hInv1 : Inv st1 := Inv_updateServices timeout tr data rinfo st st1 hInv hstep
              obtain ⟨hserv, hpend, hkeep⟩ :=
                updateServices_untouched timeout tr data rinfo name st st1 hname hstep
              refine ih st1 st' htimes htouches hInv1 (by rw [hserv]; exact hlook)
                (hkeep hInv _ hmemb rfl) ?_ h
              intro q hq hqn
              rcases hpend q hq with hq' | hq'
              · exact hNTA q hq' hqn
              · exact absurd hqn hq'
          | fire tf tid =>
              have hInv1 : Inv st1 := Inv_stepFire tf tid st st1 hInv hstep
              obtain ⟨hserv, hmemb1, hsub⟩ :=
                stepFire_untouched tf tid st st1 name fa id₀ entry hInv htime1 hmemb hNTA
                  hlook hstep
              refine ih st1 st' htimes htouches hInv1 hserv hmemb1 ?_ h
              intro q hq hqn
              exact hNTA q (hsub q hq) hqn

/-- After expiry: with no armed timer for `name` and no re-report of
`name`, its binding and the absence of timers for it persist forever. -/
theorem runEvents_after (timeout : Nat) (name : String) (entry : Json) :
    ∀ (es : List Event) (st st' : Sys),
      (∀ e ∈ es, Event.touchesName name e = false) →
      alookup st.services name = some entry →
      (∀ q ∈ st.pending, q.name ≠ name) →
      runEvents timeout es st = .ok st' →
      alookup st'.services name = some entry ∧ (∀ q ∈ st'.pending, q.name ≠ name) := by
  intro es
  induction es with
  | nil =>
      intro st st' _ hlook hnone h
      exact (Except.ok.inj h) ▸ ⟨hlook, hnone⟩
  | cons e es ih =>
      intro st st' htouch hlook hnone h
      unfold runEvents at h
      split at h
      · exact Except.noConfusion h
      · next st1 hstep =>
          have htouch1 := htouch e (List.mem_cons_self _ _)
          have htouches := fun e' he' => htouch e' (List.mem_cons_of_mem _ he')
          cases e with
          | report tr data rinfo =>
              have hname : name ∉ reportNames data := by
                simp only [Event.touchesName] at htouch1
                exact of_decide_eq_false htouch1
              obtain ⟨hserv, hpend, _⟩ :=
                updateServices_untouched timeout tr data rinfo name st st1 hname hstep
              refine ih st1 st' htouches (by rw [hserv]; exact hlook) ?_ h
              intro q hq
              rcases hpend q hq with hq' | hq'
              · exact hnone q hq'
              · exact hq'
          | fire tf tid =>
              obtain ⟨hsub, hserv⟩ := stepFire_names tf tid st st1 hstep
              refine ih st1 st' htouches (by rw [hserv name hnone]; exact hlook) ?_ h
              intro q hq
              exact hnone q (hsub q hq)

/-! ### Computation lemmas for single-name reports and expiry -/

/-- A report of a single object descriptor, with expiry enabled, stores
the stamped descriptor and debounce-arms the timer. -/
theorem updateServices_single (timeout now : Nat) (nm : String) (fs : List (String × Json))
    (rinfo : Json) (st : Sys) (hT : timeout ≠ 0) :
    updateServices timeout now (Json.obj [("services", Json.obj [(nm, Json.obj fs)])]) rinfo st
      = .ok (armTimer timeout now nm
          { st with services := aset st.services nm (Json.obj (aset fs "rinfo" rinfo)) }) := by
  simp [updateServices, getProp, alookup, objectKeysVals, updateLoop, reportOne_obj, hT]

/-- The timer callback on a present object entry: null the timer-id
sentinel and set `available = false`. -/
theorem fireCallback_obj (n : String) (st : Sys) (fs1 : List (String × Json))
    (hl : alookup st.services n = some (Json.obj fs1)) :
    fireCallback n st = .ok { st with
        timerIds := aset st.timerIds n none,
        services := aset st.services n (Json.obj (aset fs1 "available" (Json.bool false))) } := by
  unfold fireCallback
  dsimp only
  rw [hl]
  rfl

/-- After `armTimer … n` from a state whose `timeoutTimerIds[n]` holds a
stale id, no armed timer carries that id any more. -/
theorem armTimer_cancelled (T now : Nat) (n : String) (st : Sys) (tid : Nat)
    (hl : alookup st.timerIds n = some (some tid)) (hfresh : tid ≠ st.nextId) :
    ∀ q ∈ (armTimer T now n st).pending, q.id ≠ tid := by
  unfold armTimer
  rw [hl]
  dsimp only
  intro q hq
  rcases List.mem_append.mp hq with hq | hq
  · obtain ⟨_, hfilt⟩ := List.mem_filter.mp hq
    simpa [clearTimer] using hfilt
  · have hq' := List.mem_singleton.mp hq
    subst hq'
    exact hfresh.symm

/-- The invariant holds in any state with no armed timers and no
`timeoutTimerIds` entries — in particular the initial state. -/
theorem Inv_nil (s : List (String × Json)) (n : Nat) : Inv ⟨s, [], [], n⟩ :=
  ⟨fun p hp => absurd hp (List.not_mem_nil p), fun p hp => absurd hp (List.not_mem_nil p),
   fun e he => absurd he (List.not_mem_nil e), List.Pairwise.nil⟩

/-! ### Claim C4 -/

/-- C4, counterexample to the claim as stated: after report (t₀ = 0) and
re-report (t = 5) of `"a"` with timeout 10, the entry does not "remain
`available: true`" — `available` was never true, the field is absent. -/
theorem C4_counterexample :
    runEvents 10
        [Event.report 0 (Json.obj [("services", Json.obj [("a", Json.obj [])])]) (Json.str "r1"),
         Event.report 5 (Json.obj [("services", Json.obj [("a", Json.obj [])])]) (Json.str "r2")]
        ⟨[], [], [], 1⟩
      = .ok ⟨[("a", Json.obj [("rinfo", Json.str "r2")])], [("a", some 2)],
             [⟨2, "a", 15⟩], 3⟩
    ∧ storedField ⟨[("a", Json.obj [("rinfo", Json.str "r2")])], [("a", some 2)],
             [⟨2, "a", 15⟩], 3⟩ "a" "available" ≠ some (Json.bool true) :=
  ⟨rfl, fun h => Option.noConfusion h⟩

/-- C4 (amended): with timeout `T > 0`, re-reporting `name` at `t < t0+T`
after a report at `t0` cancels the timer armed at `t0` before it can fire
and arms a fresh one; at most one live timer per name exists, the timer
for `name` is due at `t+T`, and through any further events before `t+T`
that do not re-report `name` the entry keeps the re-reported descriptor
with `available` never false (it is absent, not `true` — the code never
writes `available: true`). -/
theorem C4_debounce (timeout t0 t : Nat) (st0 st1 st2 : Sys) (name : String)
    (fs fs' : List (String × Json)) (rinfo rinfo' : Json)
    (hT : 0 < timeout) (_ht : t < t0 + timeout)
    (hInv : Inv st0)
    (hav : alookup fs' "available" = none)
    (h1 : updateServices timeout t0 (Json.obj [("services", Json.obj [(name, Json.obj fs)])])
            rinfo st0 = .ok st1)
    (h2 : updateServices timeout t (Json.obj [("services", Json.obj [(name, Json.obj fs')])])
            rinfo' st1 = .ok st2) :
    ((⟨st0.nextId, name, t0 + timeout⟩ : PendingTimer) ∈ st1.pending)
    ∧ (∀ p ∈ st2.pending, p.id ≠ st0.nextId)
    ∧ (∀ p ∈ st2.pending, ∀ q ∈ st2.pending, p.name = q.name → p = q)
    ∧ (∀ p ∈ st2.pending, p.name = name → p.fireAt = t + timeout)
    ∧ ∀ es st3, (∀ e ∈ es, Event.time e < t + timeout) →
        (∀ e ∈ es, Event.touchesName name e = false) →
        runEvents timeout es st2 = .ok st3 →
        alookup st3.services name = some (Json.obj (aset fs' "rinfo" rinfo'))
        ∧ storedField st3 name "available" = none := by
  have hT' : timeout ≠ 0 := Nat.pos_iff_ne_zero.mp hT
  rw [updateServices_single timeout t0 name fs rinfo st0 hT'] at h1
  have hst1 := Except.ok.inj h1
  subst hst1
  set A : Sys :=
    { st0 with services := aset st0.services name (Json.obj (aset fs "rinfo" rinfo)) } with hA
  rw [updateServices_single timeout t name fs' rinfo' (armTimer timeout t0 name A) hT'] at h2
  have hst2 := Except.ok.inj h2
  subst hst2
  set s1 : Sys := armTimer timeout t0 name A with hs1
  set B : Sys :=
    { s1 with services := aset s1.services name (Json.obj (aset fs' "rinfo" rinfo')) } with hB
  have hInvA : Inv A := Inv_services_set st0 _ hInv
  have hInv1 : Inv s1 := Inv_armTimer _ _ _ _ hInvA
  have hInvB : Inv B := Inv_services_set s1 _ hInv1
  have hInv2 : Inv (armTimer timeout t name B) := Inv_armTimer timeout t name B hInvB
  have hAnext : A.nextId = st0.nextId := rfl
  have hlookB : alookup B.timerIds name = some (some st0.nextId) :=
    armTimer_timerIds_self timeout t0 name A
  have hBnext : B.nextId = st0.nextId + 1 := armTimer_nextId timeout t0 name A
  refine ⟨armTimer_mem_new timeout t0 name A, ?_, Inv_at_most_one _ hInv2, ?_, ?_⟩
  · intro p hp
    refine armTimer_cancelled timeout t name B st0.nextId hlookB ?_ p hp
    rw [hBnext]
    exact Nat.ne_of_lt (Nat.lt_succ_self _)
  · intro p hp hpn
    have := armTimer_name_unique timeout t name B hInvB.1 p hp hpn
    rw [this, hBnext]
  · intro es st3 htimes htouches hrun
    have hlook2 : alookup (armTimer timeout t name B).services name
        = some (Json.obj (aset fs' "rinfo" rinfo')) := by
      rw [armTimer_services]
      exact alookup_aset_self _ _ _
    have hNTA2 : NameTimersAt name (t + timeout) (armTimer timeout t name B) := by
      intro p hp hpn
      have := armTimer_name_unique timeout t name B hInvB.1 p hp hpn
      rw [this]
    obtain ⟨_, hlook3, _, _⟩ :=
      runEvents_preserve timeout name (t + timeout) B.nextId
        (Json.obj (aset fs' "rinfo" rinfo')) es (armTimer timeout t name B) st3 htimes htouches
        hInv2 hlook2 (armTimer_mem_new timeout t name B) hNTA2 hrun
    refine ⟨hlook3, ?_⟩
    unfold storedField
    rw [hlook3]
    dsimp only
    rw [alookup_aset_ne _ _ _ _ (by decide), hav]

/-- C4 witness: the amended theorem at the concrete debounce run
(timeout 10, report at 0, re-report at 5). -/
theorem C4_witness :
    (0 < 10 ∧ 5 < 0 + 10 ∧ Inv ⟨[], [], [], 1⟩
      ∧ alookup ([] : List (String × Json)) "available" = none
      ∧ updateServices 10 0 (Json.obj [("services", Json.obj [("a", Json.obj [])])])
          (Json.str "r1") ⟨[], [], [], 1⟩
          = .ok ⟨[("a", Json.obj [("rinfo", Json.str "r1")])], [("a", some 1)],
                 [⟨1, "a", 10⟩], 2⟩
      ∧ updateServices 10 5 (Json.obj [("services", Json.obj [("a", Json.obj [])])])
          (Json.str "r2")
          ⟨[("a", Json.obj [("rinfo", Json.str "r1")])], [("a", some 1)], [⟨1, "a", 10⟩], 2⟩
          = .ok ⟨[("a", Json.obj [("rinfo", Json.str "r2")])], [("a", some 2)],
                 [⟨2, "a", 15⟩], 3⟩)
    ∧ (((⟨1, "a", 10⟩ : PendingTimer)
          ∈ (⟨[("a", Json.obj [("rinfo", Json.str "r1")])], [("a", some 1)],
              [⟨1, "a", 10⟩], 2⟩ : Sys).pending)
      ∧ (∀ p ∈ (⟨[("a", Json.obj [("rinfo", Json.str "r2")])], [("a", some 2)],
              [⟨2, "a", 15⟩], 3⟩ : Sys).pending, p.id ≠ 1)
      ∧ (∀ p ∈ (⟨[("a", Json.obj [("rinfo", Json.str "r2")])], [("a", some 2)],
              [⟨2, "a", 15⟩], 3⟩ : Sys).pending,
          ∀ q ∈ (⟨[("a", Json.obj [("rinfo", Json.str "r2")])], [("a", some 2)],
              [⟨2, "a", 15⟩], 3⟩ : Sys).pending, p.name = q.name → p = q)
      ∧ (∀ p ∈ (⟨[("a", Json.obj [("rinfo", Json.str "r2")])], [("a", some 2)],
              [⟨2, "a", 15⟩], 3⟩ : Sys).pending, p.name = "a" → p.fireAt = 15)
      ∧ ∀ es st3, (∀ e ∈ es, Event.time e < 15) →
          (∀ e ∈ es, Event.touchesName "a" e = false) →
          runEvents 10 es ⟨[("a", Json.obj [("rinfo", Json.str "r2")])], [("a", some 2)],
              [⟨2, "a", 15⟩], 3⟩ = .ok st3 →
          alookup st3.services "a" = some (Json.obj [("rinfo", Json.str "r2")])
          ∧ storedField st3 "a" "available" = none) :=
  ⟨⟨by decide, by decide, Inv_nil [] 1, rfl, rfl, rfl⟩,
    C4_debounce 10 0 5 ⟨[], [], [], 1⟩
      ⟨[("a", Json.obj [("rinfo", Json.str "r1")])], [("a", some 1)], [⟨1, "a", 10⟩], 2⟩
      ⟨[("a", Json.obj [("rinfo", Json.str "r2")])], [("a", some 2)], [⟨2, "a", 15⟩], 3⟩
      "a" [] [] (Json.str "r1") (Json.str "r2") (by decide) (by decide) (Inv_nil [] 1)
      rfl rfl rfl⟩

/-! ### Claim C5 -/

/-- C5: with timeout `T > 0` and no further reports of `name` after the
report at `t0`, the entry keeps `available` unset (not false) through any
events strictly before `t0+T`; firing the armed timer at any `t' ≥ t0+T`
sets `available = false`, clears `timeoutTimerIds[name]` to the `null`
sentinel, leaves the entry in the store, and leaves no armed timer for
`name` — so the flip happens exactly once and, through any further events
that do not re-report `name`, `available` stays false and the entry is
never removed. -/
theorem C5_expiry (timeout t0 : Nat) (st0 st1 : Sys) (name : String)
    (fs : List (String × Json)) (rinfo : Json)
    (hT : 0 < timeout) (hInv : Inv st0)
    (hav : alookup fs "available" = none)
    (h1 : updateServices timeout t0 (Json.obj [("services", Json.obj [(name, Json.obj fs)])])
            rinfo st0 = .ok st1) :
    ((⟨st0.nextId, name, t0 + timeout⟩ : PendingTimer) ∈ st1.pending)
    ∧ ∀ es st2, (∀ e ∈ es, Event.time e < t0 + timeout) →
        (∀ e ∈ es, Event.touchesName name e = false) →
        runEvents timeout es st1 = .ok st2 →
        (alookup st2.services name = some (Json.obj (aset fs "rinfo" rinfo))
          ∧ storedField st2 name "available" = none)
        ∧ ∀ t', t0 + timeout ≤ t' →
            ∃ st3, stepFire t' st0.nextId st2 = .ok st3
              ∧ alookup st3.services name
                  = some (Json.obj (aset (aset fs "rinfo" rinfo) "available" (Json.bool false)))
              ∧ storedField st3 name "available" = some (Json.bool false)
              ∧ alookup st3.timerIds name = some none
              ∧ (∀ p ∈ st3.pending, p.name ≠ name)
              ∧ ∀ es2 st4, (∀ e ∈ es2, Event.touchesName name e = false) →
                  runEvents timeout es2 st3 = .ok st4 →
                  alookup st4.services name
                      = some (Json.obj (aset (aset fs "rinfo" rinfo) "available"
                          (Json.bool false)))
                    ∧ storedField st4 name "available" = some (Json.bool false)
                    ∧ (∀ p ∈ st4.pending, p.name ≠ name) := by
  have hT' : timeout ≠ 0 := Nat.pos_iff_ne_zero.mp hT
  rw [updateServices_single timeout t0 name fs rinfo st0 hT'] at h1
  have hst1 := Except.ok.inj h1
  subst hst1
  set A : Sys :=
    { st0 with services := aset st0.services name (Json.obj (aset fs "rinfo" rinfo)) } with hA
  have hInvA : Inv A := Inv_services_set st0 _ hInv
  have hInv1 : Inv (armTimer timeout t0 name A) := Inv_armTimer _ _ _ _ hInvA
  have hlook1 : alookup (armTimer timeout t0 name A).services name
      = some (Json.obj (aset fs "rinfo" rinfo)) := by
    rw [armTimer_services]
    exact alookup_aset_self _ _ _
  have hNTA1 : NameTimersAt name (t0 + timeout) (armTimer timeout t0 name A) := by
    intro p hp hpn
    rw [armTimer_name_unique timeout t0 name A hInvA.1 p hp hpn]
  refine ⟨armTimer_mem_new timeout t0 name A, ?_⟩
  intro es st2 htimes htouches hrun
  obtain ⟨hInv2, hlook2, hmemb2, hNTA2⟩ :=
    runEvents_preserve timeout name (t0 + timeout) A.nextId (Json.obj (aset fs "rinfo" rinfo))
      es (armTimer timeout t0 name A) st2 htimes htouches hInv1 hlook1
      (armTimer_mem_new timeout t0 name A) hNTA1 hrun
  have hsf2 : storedField st2 name "available" = none := by
    unfold storedField
    rw [hlook2]
    dsimp only
    rw [alookup_aset_ne _ _ _ _ (by decide), hav]
  refine ⟨⟨hlook2, hsf2⟩, ?_⟩
  intro t' ht'
  have hsome : (st2.pending.find? (fun q => q.id == A.nextId)).isSome := by
    rw [List.find?_isSome]
    exact ⟨_, hmemb2, by simp⟩
  obtain ⟨q, hq⟩ := Option.isSome_iff_exists.mp hsome
  have hqmem := List.mem_of_find?_eq_some hq
  have hqid : q.id = A.nextId := by simpa using List.find?_some hq
  have hqe : q = ⟨A.nextId, name, t0 + timeout⟩ :=
    pairwise_id_unique _ hInv2.2.2.2 q hqmem _ hmemb2 (by simp [hqid])
  rw [hqe] at hq
  have htrack2 : alookup st2.timerIds name = some (some A.nextId) := hInv2.1 _ hmemb2
  have hfire : stepFire t' A.nextId st2
      = .ok { st2 with
          pending := clearTimer A.nextId st2.pending,
          timerIds := aset st2.timerIds name none,
          services := aset st2.services name
            (Json.obj (aset (aset fs "rinfo" rinfo) "available" (Json.bool false))) } := by
    unfold stepFire
    rw [hq]
    dsimp only
    rw [if_pos ht']
    exact fireCallback_obj name { st2 with pending := clearTimer A.nextId st2.pending }
      (aset fs "rinfo" rinfo) hlook2
  have hpend3 : ∀ p ∈ clearTimer A.nextId st2.pending, p.name ≠ name := by
    intro p hp hpn
    obtain ⟨hpmem, hpfilt⟩ := List.mem_filter.mp hp
    have := hInv2.1 p hpmem
    rw [hpn, htrack2] at this
    have hpid : p.id = A.nextId := (Option.some.inj (Option.some.inj this)).symm
    simp [hpid] at hpfilt
  have hlook3 : alookup (aset st2.services name
      (Json.obj (aset (aset fs "rinfo" rinfo) "available" (Json.bool false)))) name
      = some (Json.obj (aset (aset fs "rinfo" rinfo) "available" (Json.bool false))) :=
    alookup_aset_self _ _ _
  refine ⟨_, hfire, hlook3, ?_, alookup_aset_self _ _ _, hpend3, ?_⟩
  · unfold storedField
    dsimp only
    rw [hlook3]
    dsimp only
    exact alookup_aset_self _ _ _
  · intro es2 st4 htouch2 hrun2
    obtain ⟨hlook4, hpend4⟩ :=
      runEvents_after timeout name
        (Json.obj (aset (aset fs "rinfo" rinfo) "available" (Json.bool false))) es2 _ st4
        htouch2 hlook3 hpend3 hrun2
    refine ⟨hlook4, ?_, hpend4⟩
    unfold storedField
    rw [hlook4]
    dsimp only
    exact alookup_aset_self _ _ _

/-- C5 witness: the theorem at a concrete report (timeout 10, `t0 = 0`). -/
theorem C5_witness :
    (0 < 10 ∧ Inv ⟨[], [], [], 1⟩
      ∧ alookup ([] : List (String × Json)) "available" = none
      ∧ updateServices 10 0 (Json.obj [("services", Json.obj [("a", Json.obj [])])])
          (Json.str "r") ⟨[], [], [], 1⟩
          = .ok ⟨[("a", Json.obj [("rinfo", Json.str "r")])], [("a", some 1)],
                 [⟨1, "a", 10⟩], 2⟩)
    ∧ (((⟨1, "a", 10⟩ : PendingTimer)
          ∈ (⟨[("a", Json.obj [("rinfo", Json.str "r")])], [("a", some 1)],
              [⟨1, "a", 10⟩], 2⟩ : Sys).pending)
      ∧ ∀ es st2, (∀ e ∈ es, Event.time e < 10) →
          (∀ e ∈ es, Event.touchesName "a" e = false) →
          runEvents 10 es ⟨[("a", Json.obj [("rinfo", Json.str "r")])], [("a", some 1)],
              [⟨1, "a", 10⟩], 2⟩ = .ok st2 →
          (alookup st2.services "a" = some (Json.obj [("rinfo", Json.str "r")])
            ∧ storedField st2 "a" "available" = none)
          ∧ ∀ t', 10 ≤ t' →
              ∃ st3, stepFire t' 1 st2 = .ok st3
                ∧ alookup st3.services "a"
                    = some (Json.obj [("rinfo", Json.str "r"), ("available", Json.bool false)])
                ∧ storedField st3 "a" "available" = some (Json.bool false)
                ∧ alookup st3.timerIds "a" = some none
                ∧ (∀ p ∈ st3.pending, p.name ≠ "a")
                ∧ ∀ es2 st4, (∀ e ∈ es2, Event.touchesName "a" e = false) →
                    runEvents 10 es2 st3 = .ok st4 →
                    alookup st4.services "a"
                        = some (Json.obj [("rinfo", Json.str "r"),
                            ("available", Json.bool false)])
                      ∧ storedField st4 "a" "available" = some (Json.bool false)
                      ∧ (∀ p ∈ st4.pending, p.name ≠ "a")) :=
  ⟨⟨by decide, Inv_nil [] 1, rfl, rfl⟩,
    C5_expiry 10 0 ⟨[], [], [], 1⟩
      ⟨[("a", Json.obj [("rinfo", Json.str "r")])], [("a", some 1)], [⟨1, "a", 10⟩], 2⟩
      "a" [] (Json.str "r") (by decide) (Inv_nil [] 1) rfl rfl⟩

end Tracker
